import Mathlib

/-!
Verification of the Intelligent-Compiler pipeline (src/main.rs).

The Rust source is shallowly embedded: every definition below mirrors one
function or data type of the source.  Rust `HashMap<String, String>` is
modelled as an association list (the source only ever calls `get`, modelled
by `List.lookup`); Rust early `return` is modelled as a conditional; the
external LLM collaborator (trait `LLM`, method `predict`) is modelled as an
arbitrary total function `llm : String → String`, matching the spec view of
the oracle as an opaque `predict(prompt) -> text` capability.
-/

mutual

/-- NodeKind from the source: the tagged union of syntax-node variants
(`Identifier`, `Number`, `BinaryOp`, `Function`, `Unknown`). -/
inductive NodeKind where
  | Identifier (s : String) : NodeKind
  | Number (v : Float) : NodeKind
  | BinaryOp (op : String) (left right : Node) : NodeKind
  | Function (name : String) (args : List String) (body : List Node) : NodeKind
  | Unknown : NodeKind

/-- Node from the source: a kind plus a metadata map (string key to string
value); the `HashMap` is modelled as an association list. -/
inductive Node where
  | mk (kind : NodeKind) (meta : List (String × String)) : Node

end

/-- Accessor for the `kind` field of `Node`. -/
def Node.kind : Node → NodeKind
  | Node.mk k _ => k

/-- Accessor for the `meta` field of `Node`. -/
def Node.meta : Node → List (String × String)
  | Node.mk _ m => m

/-- VersionAI knowledge table built in `VersionAI::new`:
go ↦ ["1.21"], cpp ↦ ["23"], swift ↦ ["6.0"]. -/
def versionTable : List (String × List String) :=
  [("go", ["1.21"]), ("cpp", ["23"]), ("swift", ["6.0"])]

/-- VersionAI::infer from the source.  The Rust early return
(`if lang == "go" && meta flag … return "1.21"`) is modelled as a
conditional; the fallback is `map.get(lang).and_then(|v| v.last()).unwrap_or("unknown")`. -/
def infer (lang : String) (node : Node) : String :=
  if lang == "go" && (node.meta.lookup "uses_generics" == some "true") then
    "1.21"
  else
    (((versionTable.lookup lang).bind List.getLast?).getD "unknown")

/-- SemanticInfo record from the source (field `meaning`). -/
structure SemanticInfo where
  meaning : String

/-- SemanticEngine::analyze from the source: `Identifier(x)` yields
"identifier \x27x\x27", every other variant falls into the catch-all arm
yielding "unknown". -/
def analyze (node : Node) : SemanticInfo :=
  match node.kind with
  | NodeKind.Identifier x => { meaning := "identifier \x27" ++ x ++ "\x27" }
  | _ => { meaning := "unknown" }

/-- BaseGenerator::generate from the source: only `Identifier` has
per-language templates; every other variant falls into the catch-all arm. -/
def generate (node : Node) (lang : String) : String :=
  match node.kind with
  | NodeKind.Identifier x =>
    match lang with
    | "go" => "var " ++ x ++ " any"
    | "cpp" => "auto " ++ x ++ ";"
    | "swift" => "var " ++ x ++ ": Any"
    | _ => x
  | _ => "/* unsupported */"

/-- Rust `Debug` escaping of one character inside a string literal
(common escapes only; exotic control characters are rendered as-is, which
no claim depends on). -/
def escChar (c : Char) : String :=
  if c = '"' then "\\\""
  else if c = '\\' then "\\\\"
  else if c = '\n' then "\\n"
  else if c = '\t' then "\\t"
  else if c = '\r' then "\\r"
  else String.singleton c

/-- Rust `Debug` rendering of a `String`: quoted and escaped. -/
def debugString (s : String) : String :=
  "\"" ++ String.join (s.data.map escChar) ++ "\""

/-- Rust `Debug` rendering of the metadata `HashMap`; the association list
is printed in list order (the `HashMap` iteration order is unspecified in
Rust, and no claim depends on it). -/
def debugMeta (m : List (String × String)) : String :=
  "\x7b" ++
    String.intercalate ", " (m.map (fun p => debugString p.1 ++ ": " ++ debugString p.2)) ++
  "\x7d"

/-- Rust `Debug` rendering of a `Vec<String>`. -/
def debugStringVec (xs : List String) : String :=
  "[" ++ String.intercalate ", " (xs.map debugString) ++ "]"

mutual

/-- Derived Rust `Debug` rendering of a `Node` (as produced by the `{:?}`
format specifier used in the security prompt). -/
def debugNode : Node → String
  | Node.mk k m => "Node \x7b kind: " ++ debugKind k ++ ", meta: " ++ debugMeta m ++ " \x7d"

/-- Derived Rust `Debug` rendering of a `NodeKind`.  The float payload is
rendered with the ambient float-to-string conversion; its exact text is
not depended on by any claim. -/
def debugKind : NodeKind → String
  | NodeKind.Identifier s => "Identifier(" ++ debugString s ++ ")"
  | NodeKind.Number v => "Number(" ++ toString v ++ ")"
  | NodeKind.BinaryOp op l r =>
    "BinaryOp \x7b op: " ++ debugString op ++ ", left: " ++ debugNode l ++
      ", right: " ++ debugNode r ++ " \x7d"
  | NodeKind.Function n a b =>
    "Function \x7b name: " ++ debugString n ++ ", args: " ++ debugStringVec a ++
      ", body: [" ++ debugNodeList b ++ "] \x7d"
  | NodeKind.Unknown => "Unknown"

/-- Derived Rust `Debug` rendering of the elements of a `Vec<Node>`. -/
def debugNodeList : List Node → String
  | [] => ""
  | [n] => debugNode n
  | n :: rest => debugNode n ++ ", " ++ debugNodeList rest

end

/-- Prompt sent to the oracle by SecurityAI::analyze:
`format!("Security check for node: \x7b:?\x7d", node)`. -/
def securityPrompt (node : Node) : String :=
  "Security check for node: " ++ debugNode node

/-- SecurityAI::analyze from the source: a one-element vector holding the
oracle reply to the security prompt. -/
def securityAnalyze (llm : String → String) (node : Node) : List String :=
  [llm (securityPrompt node)]

/-- The set of named security rules registered by the source.  `SecurityAI`
holds only the oracle handle and registers no named predicate rules, so
this list is empty. -/
def registeredSecurityRules : List (String × (Node → Bool)) := []

/-- Prompt built by LLMGenerator::refine:
`format!("Rewrite in idiomatic \x7b\x7d \x7b\x7d code:\n\x7b\x7d", lang, version, code)`. -/
def refinePrompt (lang version code : String) : String :=
  "Rewrite in idiomatic " ++ lang ++ " " ++ version ++ " code:\n" ++ code

/-- LLMGenerator::refine from the source. -/
def refine (llm : String → String) (lang version code : String) : String :=
  llm (refinePrompt lang version code)

/-- Compiler::compile_node from the source: the five stages run in order
(infer, analyze, generate, refine, security-analyze) and the results are
formatted into the report string. -/
def compile_node (llm : String → String) (node : Node) (lang : String) : String :=
  let ver := infer lang node
  let sem := analyze node
  let base := generate node lang
  let refined := refine llm lang ver base
  let sec := securityAnalyze llm node
  "=== Intelligent Compiler ===\nLanguage: " ++ lang ++ "\nVersion: " ++ ver ++
    "\nMeaning: " ++ sem.meaning ++ "\n\nBase:\n" ++ base ++
    "\n\nAI Refined:\n" ++ refined ++ "\n\nSecurity:\n" ++ debugStringVec sec

/-- Skip list from should_skip_dir in the source. -/
def skipList : List String :=
  [".git", "target", "build", "node_modules", "__pycache__", ".idea", ".vscode"]

/-- should_skip_dir from the source.  Rust `Path::ends_with` compares whole
final path components, so over a single directory entry it is exact
equality of the entry name with a skip-list entry. -/
def shouldSkipDir (name : String) : Bool :=
  skipList.any (fun s => name == s)

/-- Rust `Path::extension` over a file name: the part after the last dot,
none when there is no dot or the only dot is the leading character. -/
def fileExtension (name : String) : Option String :=
  let cs := name.data
  let revExt := cs.reverse.takeWhile (fun c => c ≠ '.')
  if revExt.length = cs.length then none
  else if revExt.length = cs.length - 1 then none
  else some (String.mk revExt.reverse)

/-- Lower-casing of a string, modelled character by character (Rust
`str::to_lowercase`; the multi-character Unicode special cases do not
arise for file extensions). -/
def lowercase (s : String) : String :=
  String.mk (s.data.map Char.toLower)

/-- is_convertible_file from the source: the lower-cased extension must be
in the fixed whitelist. -/
def isConvertibleFile (name : String) : Bool :=
  match fileExtension name with
  | some ext =>
    let e := lowercase ext
    (e == "rs") || (e == "cpp") || (e == "h") || (e == "c") || (e == "py") ||
      (e == "go") || (e == "ts") || (e == "js") || (e == "swift")
  | none => false

/-- mapped_ext from the source: the per-language output extension with the
generic "txt" fallback. -/
def mappedExt (lang : String) : String :=
  match lang with
  | "go" => "go"
  | "cpp" => "cpp"
  | "swift" => "swift"
  | "rust" => "rs"
  | "python" => "py"
  | _ => "txt"

/-- Prompt built for each convertible file inside walk:
`format!("Transpile fully into \x7b\x7d code:\n\x7b\x7d", lang, content)`. -/
def transpilePrompt (lang content : String) : String :=
  "Transpile fully into " ++ lang ++ " code:\n" ++ content

mutual

/-- One entry of the input directory tree.  A file carries its readable
content, or none when reading fails (the source then falls back to the
empty string via unwrap_or_default).  A directory carries a readable flag:
when false, `fs::read_dir` on it fails (the source then panics via
unwrap). -/
inductive Entry where
  | file (name : String) (content : Option String) : Entry
  | dir (name : String) (readable : Bool) (contents : EntryList) : Entry

/-- The ordered entries of one directory, in `fs::read_dir` order. -/
inductive EntryList where
  | nil : EntryList
  | cons (e : Entry) (rest : EntryList) : EntryList

end

/-- The recursive walk from transpile_project in the source, over the
modelled input tree.  The result is the ordered list of written output
files (output path as a component list, paired with the written text), or
an error when the walk panics (`fs::read_dir(..).unwrap()` on an
unreadable, non-skipped directory).  Directory creation and file writes
use unwrap_or in the source and so never abort; writes are recorded
unconditionally. -/
def walk (llm : String → String) (lang : String) :
    EntryList → List String → Except Unit (List (List String × String))
  | EntryList.nil, _out => Except.ok []
  | EntryList.cons (Entry.dir name r sub) rest, out =>
    if shouldSkipDir name then
      walk llm lang rest out
    else if r then
      match walk llm lang sub (out ++ [name]) with
      | Except.error e => Except.error e
      | Except.ok w1 =>
        match walk llm lang rest out with
        | Except.error e => Except.error e
        | Except.ok w2 => Except.ok (w1 ++ w2)
    else
      Except.error ()
  | EntryList.cons (Entry.file name content) rest, out =>
    if isConvertibleFile name then
      match walk llm lang rest out with
      | Except.error e => Except.error e
      | Except.ok ws =>
        Except.ok ((out ++ [name ++ "." ++ mappedExt lang],
          llm (transpilePrompt lang (content.getD ""))) :: ws)
    else
      walk llm lang rest out

/-- Every non-skipped directory reachable by the walk is readable.  Under
this condition the walk cannot hit the panicking unwrap. -/
def dirsReadable : EntryList → Bool
  | EntryList.nil => true
  | EntryList.cons (Entry.file _ _) rest => dirsReadable rest
  | EntryList.cons (Entry.dir name r sub) rest =>
    if shouldSkipDir name then dirsReadable rest
    else r && dirsReadable sub && dirsReadable rest

/-!  Helper lemmas about the directory walk, shared by several claims. -/

theorem walk_shape (llm : String → String) (lang : String) (entries : EntryList)
    (out : List String) :
    ∀ ws : List (List String × String), walk llm lang entries out = Except.ok ws →
      ∀ pc ∈ ws, ∃ dirs orig,
        pc.1 = out ++ dirs ++ [orig ++ "." ++ mappedExt lang] ∧
        (∀ d ∈ dirs, shouldSkipDir d = false) ∧
        isConvertibleFile orig = true := by
  induction entries, out using walk.induct llm lang with
  | case1 out =>
    intro ws h pc hpc
    simp [walk] at h
    subst h
    simp at hpc
  | case2 name r sub rest out hskip ih =>
    intro ws h pc hpc
    rw [walk] at h
    simp [hskip] at h
    exact ih ws h pc hpc
  | case3 name sub rest out hskip e herr ih =>
    intro ws h
    rw [walk] at h
    simp [hskip, herr] at h
  | case4 name sub rest out hskip w1 hok e herr ih1 ih2 =>
    intro ws h
    rw [walk] at h
    simp [hskip, hok, herr] at h
  | case5 name sub rest out hskip w1 hok1 w2 hok2 ih1 ih2 =>
    intro ws h pc hpc
    rw [walk] at h
    simp [hskip, hok1, hok2] at h
    subst h
    rcases List.mem_append.mp hpc with hm | hm
    · obtain ⟨dirs, orig, hp, hdirs, hconv⟩ := ih1 w1 hok1 pc hm
      refine ⟨name :: dirs, orig, ?_, ?_, hconv⟩
      · simpa using hp
      · intro d hd
        rcases List.mem_cons.mp hd with hd | hd
        · subst hd
          exact Bool.not_eq_true _ ▸ (by simpa using hskip)
        · exact hdirs d hd
    · exact ih2 w2 hok2 pc hm
  | case6 name r sub rest out hskip hr =>
    intro ws h
    rw [walk] at h
    simp [hskip, hr] at h
  | case7 name content rest out hconv e herr ih =>
    intro ws h
    rw [walk] at h
    simp [hconv, herr] at h
  | case8 name content rest out hconv ws0 hok ih =>
    intro ws h pc hpc
    rw [walk] at h
    simp [hconv, hok] at h
    subst h
    rcases List.mem_cons.mp hpc with hm | hm
    · subst hm
      exact ⟨[], name, by simp, by simp, hconv⟩
    · exact ih ws0 hok pc hm
  | case9 name content rest out hconv ih =>
    intro ws h pc hpc
    rw [walk] at h
    simp [hconv] at h
    exact ih ws h pc hpc

theorem walk_isOk_of_dirsReadable (llm : String → String) (lang : String) (entries : EntryList)
    (out : List String) :
    dirsReadable entries = true → (walk llm lang entries out).isOk = true := by
  induction entries, out using walk.induct llm lang with
  | case1 out =>
    intro _h
    rfl
  | case2 name r sub rest out hskip ih =>
    intro h
    rw [dirsReadable] at h
    rw [walk]
    simp [hskip] at h ⊢
    exact ih h
  | case3 name sub rest out hskip e herr ih =>
    intro h
    rw [dirsReadable] at h
    simp [hskip] at h
    have := ih h.1
    rw [herr] at this
    simp [Except.isOk, Except.toBool] at this
  | case4 name sub rest out hskip w1 hok e herr ih1 ih2 =>
    intro h
    rw [dirsReadable] at h
    simp [hskip] at h
    have := ih2 h.2
    rw [herr] at this
    simp [Except.isOk, Except.toBool] at this
  | case5 name sub rest out hskip w1 hok1 w2 hok2 ih1 ih2 =>
    intro h
    rw [walk]
    simp [hskip, hok1, hok2, Except.isOk, Except.toBool]
  | case6 name r sub rest out hskip hr =>
    intro h
    rw [dirsReadable] at h
    simp [hskip, hr] at h
  | case7 name content rest out hconv e herr ih =>
    intro h
    rw [dirsReadable] at h
    have := ih h
    rw [herr] at this
    simp [Except.isOk, Except.toBool] at this
  | case8 name content rest out hconv ws0 hok ih =>
    intro h
    rw [walk]
    simp [hconv, hok, Except.isOk, Except.toBool]
  | case9 name content rest out hconv ih =>
    intro h
    rw [dirsReadable] at h
    rw [walk]
    simp [hconv]
    exact ih h

/-- Helper: on language "go" the inference always yields "1.21", with or
without the generics flag. -/
theorem infer_go (n : Node) : infer "go" n = "1.21" := by
  unfold infer
  split <;> rfl

/-- C1: compile returns the complete six-field report, the five stages run
in the fixed order, the refine prompt is built from the generated base code
and the inferred version, and compile never fails. -/
theorem compile_node_contract (llm : String → String) (node : Node) (lang : String) :
    compile_node llm node lang =
      "=== Intelligent Compiler ===\nLanguage: " ++ lang ++
      "\nVersion: " ++ infer lang node ++
      "\nMeaning: " ++ (analyze node).meaning ++
      "\n\nBase:\n" ++ generate node lang ++
      "\n\nAI Refined:\n" ++ refine llm lang (infer lang node) (generate node lang) ++
      "\n\nSecurity:\n" ++ debugStringVec (securityAnalyze llm node) := rfl

/-- C2: generate, infer and analyze are total over every node variant and
every language. -/
theorem stages_total (node : Node) (lang : String) :
    ∃ g v m, generate node lang = g ∧ infer lang node = v ∧ (analyze node).meaning = m :=
  ⟨_, _, _, rfl, rfl, rfl⟩

/-- C5 counterexample: on a NumberLiteral node the classifier yields
"unknown", not "numeric literal". -/
theorem analyze_number_literal_counterexample :
    (analyze (Node.mk (NodeKind.Number 1.0) [])).meaning = "unknown" ∧
    (analyze (Node.mk (NodeKind.Number 1.0) [])).meaning ≠ "numeric literal" :=
  ⟨rfl, by decide⟩

/-- C5 amended: the classifier returns "identifier \x27name\x27" for an
Identifier node and "unknown" for every other variant. -/
theorem analyze_dispatch_amended :
    (∀ x m, (analyze (Node.mk (NodeKind.Identifier x) m)).meaning = "identifier \x27" ++ x ++ "\x27") ∧
    (∀ v m, (analyze (Node.mk (NodeKind.Number v) m)).meaning = "unknown") ∧
    (∀ op l r m, (analyze (Node.mk (NodeKind.BinaryOp op l r) m)).meaning = "unknown") ∧
    (∀ f a b m, (analyze (Node.mk (NodeKind.Function f a b) m)).meaning = "unknown") ∧
    (∀ m, (analyze (Node.mk NodeKind.Unknown m)).meaning = "unknown") :=
  ⟨fun _ _ => rfl, fun _ _ => rfl, fun _ _ _ _ => rfl, fun _ _ _ _ => rfl, fun _ => rfl⟩

/-- C6 counterexample: generate on a BinaryOperation returns the
unsupported placeholder, not the recursive infix composition. -/
theorem generate_binary_op_counterexample :
    generate (Node.mk (NodeKind.BinaryOp "+" (Node.mk (NodeKind.Identifier "x") [])
      (Node.mk (NodeKind.Identifier "y") [])) []) "go" = "/* unsupported */" ∧
    generate (Node.mk (NodeKind.BinaryOp "+" (Node.mk (NodeKind.Identifier "x") [])
      (Node.mk (NodeKind.Identifier "y") [])) []) "go" ≠
      generate (Node.mk (NodeKind.Identifier "x") []) "go" ++ " " ++ "+" ++ " " ++
        generate (Node.mk (NodeKind.Identifier "y") []) "go" :=
  ⟨rfl, by decide⟩

/-- C6 amended: for every language, operator and children, generate on a
BinaryOperation node returns the fixed unsupported placeholder. -/
theorem generate_binary_op_amended (lang op : String) (l r : Node) (m : List (String × String)) :
    generate (Node.mk (NodeKind.BinaryOp op l r) m) lang = "/* unsupported */" := rfl

/-- C7: the security analysis returns one entry per satisfied registered
rule (there are none) plus a final oracle-derived entry, which is always
the last element. -/
theorem security_analyze_shape (llm : String → String) (node : Node) :
    (securityAnalyze llm node).length =
      (registeredSecurityRules.filter (fun rule => rule.2 node)).length + 1 ∧
    (securityAnalyze llm node).getLast? = some (llm (securityPrompt node)) :=
  ⟨rfl, rfl⟩

/-- C9: version inference on a language outside the knowledge table
returns the sentinel "unknown". -/
theorem infer_unknown_language (lang : String) (node : Node)
    (h1 : lang ≠ "go") (h2 : lang ≠ "cpp") (h3 : lang ≠ "swift") :
    infer lang node = "unknown" := by
  have hb1 : (lang == "go") = false := beq_eq_false_iff_ne.mpr h1
  have hb2 : (lang == "cpp") = false := beq_eq_false_iff_ne.mpr h2
  have hb3 : (lang == "swift") = false := beq_eq_false_iff_ne.mpr h3
  simp [infer, versionTable, List.lookup, hb1, hb2, hb3]

/-- C9 witness at the concrete language "kotlin". -/
theorem infer_unknown_language_witness :
    ("kotlin" : String) ≠ "go" ∧
    infer "kotlin" (Node.mk NodeKind.Unknown []) = "unknown" :=
  ⟨by decide, infer_unknown_language "kotlin" (Node.mk NodeKind.Unknown [])
    (by decide) (by decide) (by decide)⟩

/-- C10: the inferred version depends only on the language, never on the
node; in particular on "go" it is "1.21" for every node. -/
theorem infer_language_only :
    (∀ lang (n1 n2 : Node), infer lang n1 = infer lang n2) ∧
    (∀ n : Node, infer "go" n = "1.21") := by
  constructor
  · intro lang n1 n2
    by_cases h : lang = "go"
    · subst h
      rw [infer_go, infer_go]
    · have hb : (lang == "go") = false := by simp [h]
      simp [infer, hb]
  · exact infer_go

/-- The end-to-end scenario tree from the spec: src contains a.rs, a .git
subdirectory holding ignored.rs, and notes.md. -/
def scenarioTree : EntryList :=
  EntryList.cons (Entry.file "a.rs" (some "fn f() \x7b\x7d"))
    (EntryList.cons (Entry.dir ".git" true
      (EntryList.cons (Entry.file "ignored.rs" (some "fn g() \x7b\x7d")) EntryList.nil))
      (EntryList.cons (Entry.file "notes.md" (some "notes")) EntryList.nil))

/-- C3: the walk never descends into a directory whose name equals a
skip-list entry (its contents, readable or not, never influence the
result), and every produced output comes from a whitelisted file reached
through non-skipped directories only; hence a convertible file inside a
skipped directory produces no output. -/
theorem transpiler_skip_and_whitelist :
    (∀ (llm : String → String) (lang name : String) (r : Bool) (sub rest : EntryList)
      (out : List String), shouldSkipDir name = true →
        walk llm lang (EntryList.cons (Entry.dir name r sub) rest) out =
          walk llm lang rest out) ∧
    (∀ (llm : String → String) (lang : String) (entries : EntryList) (out : List String)
      (ws : List (List String × String)), walk llm lang entries out = Except.ok ws →
        ∀ pc ∈ ws, ∃ dirs orig,
          pc.1 = out ++ dirs ++ [orig ++ "." ++ mappedExt lang] ∧
          (∀ d ∈ dirs, shouldSkipDir d = false) ∧
          isConvertibleFile orig = true) := by
  constructor
  · intro llm lang name r sub rest out h
    rw [walk]
    simp [h]
  · intro llm lang entries out ws h
    exact walk_shape llm lang entries out ws h

/-- C3 witness: the skipped .git directory is never entered (even when
unreadable), and the concrete output of a one-file tree has the shape the
theorem describes. -/
theorem transpiler_skip_and_whitelist_witness :
    walk (fun s => s) "go"
      (EntryList.cons (Entry.dir ".git" false
        (EntryList.cons (Entry.file "hidden.rs" (some "x")) EntryList.nil))
        EntryList.nil) ["out"] =
      walk (fun s => s) "go" EntryList.nil ["out"] ∧
    ∃ dirs orig,
      (["out", "a.rs.go"] : List String) = ["out"] ++ dirs ++ [orig ++ "." ++ mappedExt "go"] ∧
      (∀ d ∈ dirs, shouldSkipDir d = false) ∧
      isConvertibleFile orig = true := by
  constructor
  · exact transpiler_skip_and_whitelist.1 (fun s => s) "go" ".git" false
      (EntryList.cons (Entry.file "hidden.rs" (some "x")) EntryList.nil) EntryList.nil ["out"]
      (by rfl)
  · exact transpiler_skip_and_whitelist.2 (fun s => s) "go"
      (EntryList.cons (Entry.file "a.rs" (some "x")) EntryList.nil) ["out"]
      [(["out", "a.rs.go"], "Transpile fully into go code:\nx")] (by rfl)
      (["out", "a.rs.go"], "Transpile fully into go code:\nx") (by simp)

/-- C4 counterexample: a tree whose first entry is an unreadable directory
and whose second entry is a readable convertible file.  The walk aborts
with the panic instead of isolating the failure and processing the
sibling, so the whole traversal produces an error and no output at all. -/
theorem walk_unreadable_dir_aborts :
    walk (fun s => s) "go"
      (EntryList.cons (Entry.dir "data" false EntryList.nil)
        (EntryList.cons (Entry.file "a.rs" (some "x")) EntryList.nil)) ["out"] =
      Except.error () := rfl

/-- C4 amended: per-file read errors are isolated (an unreadable file is
processed as if it had empty content and the traversal continues with its
siblings), and the walk completes whenever every reachable non-skipped
directory is readable; but an unreadable non-skipped directory aborts the
entire walk. -/
theorem walk_fault_isolation_amended :
    (∀ (llm : String → String) (lang name : String) (rest : EntryList) (out : List String),
      walk llm lang (EntryList.cons (Entry.file name none) rest) out =
        walk llm lang (EntryList.cons (Entry.file name (some "")) rest) out) ∧
    (∀ (llm : String → String) (lang : String) (entries : EntryList) (out : List String),
      dirsReadable entries = true → (walk llm lang entries out).isOk = true) := by
  constructor
  · intro llm lang name rest out
    rfl
  · intro llm lang entries out h
    exact walk_isOk_of_dirsReadable llm lang entries out h

/-- C4 witness: concrete instances of both amended parts, with an
unreadable file present. -/
theorem walk_fault_isolation_amended_witness :
    walk (fun s => s) "go"
      (EntryList.cons (Entry.file "b.rs" none) EntryList.nil) ["o"] =
      walk (fun s => s) "go"
        (EntryList.cons (Entry.file "b.rs" (some "")) EntryList.nil) ["o"] ∧
    (walk (fun s => s) "go"
      (EntryList.cons (Entry.file "b.rs" none) EntryList.nil) ["o"]).isOk = true := by
  constructor
  · exact walk_fault_isolation_amended.1 (fun s => s) "go" "b.rs" EntryList.nil ["o"]
  · exact walk_fault_isolation_amended.2 (fun s => s) "go"
      (EntryList.cons (Entry.file "b.rs" none) EntryList.nil) ["o"] (by rfl)

/-- C8: every output file is named original-name dot mapped-extension; the
extension map sends go, cpp, swift, rust, python to go, cpp, swift, rs, py
and every other language to txt; and the spec scenario tree produces
exactly the single output out/a.rs.go. -/
theorem transpiler_output_naming :
    (∀ (llm : String → String) (lang : String) (entries : EntryList) (out : List String)
      (ws : List (List String × String)), walk llm lang entries out = Except.ok ws →
        ∀ pc ∈ ws, ∃ pre orig, pc.1 = pre ++ [orig ++ "." ++ mappedExt lang]) ∧
    (mappedExt "go" = "go" ∧ mappedExt "cpp" = "cpp" ∧ mappedExt "swift" = "swift" ∧
      mappedExt "rust" = "rs" ∧ mappedExt "python" = "py") ∧
    (∀ lang : String, lang ≠ "go" → lang ≠ "cpp" → lang ≠ "swift" → lang ≠ "rust" →
      lang ≠ "python" → mappedExt lang = "txt") ∧
    walk (fun _p => "TRANSPILED") "go" scenarioTree ["out"] =
      Except.ok [(["out", "a.rs.go"], "TRANSPILED")] := by
  refine ⟨?_, ⟨rfl, rfl, rfl, rfl, rfl⟩, ?_, ?_⟩
  · intro llm lang entries out ws h pc hpc
    obtain ⟨dirs, orig, hp, _hdirs, _hconv⟩ := walk_shape llm lang entries out ws h pc hpc
    exact ⟨out ++ dirs, orig, by simpa using hp⟩
  · intro lang h1 h2 h3 h4 h5
    unfold mappedExt
    split <;> simp_all
  · rfl

/-- C8 witness: concrete instances of the hypothesis-bearing parts: the
naming shape of the scenario output and the fallback extension for an
unrecognized language. -/
theorem transpiler_output_naming_witness :
    (∃ pre orig, (["out", "a.rs.go"] : List String) = pre ++ [orig ++ "." ++ mappedExt "go"]) ∧
    mappedExt "kotlin" = "txt" := by
  constructor
  · exact transpiler_output_naming.1 (fun _p => "TRANSPILED") "go" scenarioTree ["out"]
      [(["out", "a.rs.go"], "TRANSPILED")] transpiler_output_naming.2.2.2
      (["out", "a.rs.go"], "TRANSPILED") (by simp)
  · exact transpiler_output_naming.2.2.1 "kotlin" (by decide) (by decide) (by decide)
      (by decide) (by decide)
